import Mathlib

/-!
Shallow embedding of the return/statistics derivation pipeline of the
cardinal-finance-lab repository (src/process_stock_data.py and
src/create_comprehensive_data.py), together with theorems settling the
frozen claims C1-C10 about it.

Modelling conventions:
* Python floats are modelled by `ℚ` (exact arithmetic); `round(x, 2)` is
  modelled by `round2`, rounding to the nearest multiple of 1/100
  (half away from zero upward, the idealisation of the source's rounding).
* A `datetime` value is represented by its calendar year only, because the
  embedded functions consult nothing but `.year`.
* Python's `str(curr_year)` year label is kept as the integer year.
* Code that can raise (`ZeroDivisionError` in `calculate_stats` when
  `len(returns) - 1 == 0`) is embedded in `Except String`.
* The float expression `cumulative ** (1/period)` (a real W-th root) has no
  exact rational counterpart, so `calculate_rolling_returns` is parametrised
  by the root function `root : ℚ → ℕ → ℚ`; every length statement holds for
  all `root`, and statements about window length 1 assume only
  `root x 1 = x`, which is exactly `x ** (1/1) = x` in the source.
-/

namespace StockPipeline

/-- One row of a daily price file: `{'date': date, 'close': close}` in
`read_stock_data` (src/process_stock_data.py, lines 53-68); only the year of
the date is consulted by `calculate_annual_returns`. -/
structure PricePoint where
  year : Int
  close : ℚ
deriving DecidableEq, Repr

/-- One annual return record `{'year': str(curr_year), 'return': ...}`
(src/process_stock_data.py, lines 130-133). -/
structure AnnualReturn where
  year : Int
  ret : ℚ
deriving DecidableEq, Repr

/-- One quarterly return record `{'quarter': f"{year}Q{q}", 'return': ...}`
(src/create_comprehensive_data.py, lines 80-83); the label is kept as the
(year, quarter) pair. -/
structure QuarterlyReturn where
  year : Int
  quarter : Nat
  ret : ℚ
deriving DecidableEq, Repr

/-- `round(q, 2)`: rounding to 2 decimal places, modelled as rounding
`q * 100` to the nearest integer (halves upward) and dividing back. -/
def round2 (q : ℚ) : ℚ :=
  ((q * 100 + 1 / 2).floor : ℚ) / 100

/-- The list of consecutive pairs `(l[i-1], l[i])` for `i in range(1, len(l))`,
the iteration pattern of `calculate_annual_returns`
(src/process_stock_data.py, line 120). -/
def consecPairs {α : Type} : List α → List (α × α)
  | a :: b :: rest => (a, b) :: consecPairs (b :: rest)
  | _ => []

/-- `sorted(yearly_prices.keys())`: the distinct years of the series in
ascending order (src/process_stock_data.py, lines 111-117). -/
def yearsOf (prices : List PricePoint) : List Int :=
  List.insertionSort (· ≤ ·) ((prices.map (·.year)).dedup)

/-- `yearly_prices[year][-1]`: the last entry (in input order) of the series
whose date falls in year `y` (src/process_stock_data.py, lines 111-114, 125-126). -/
def lastOfYear (prices : List PricePoint) (y : Int) : Option PricePoint :=
  (prices.filter (fun p => decide (p.year = y))).getLast?

/-- The body of the loop of `calculate_annual_returns` for one pair of
consecutive years: take the last price of each year and, when
`prev_price > 0`, emit the percentage return rounded to 2 decimals
(src/process_stock_data.py, lines 120-133). -/
def annualReturnOfPair (prices : List PricePoint) (pc : Int × Int) :
    Option AnnualReturn :=
  match lastOfYear prices pc.1, lastOfYear prices pc.2 with
  | some prev, some curr =>
      if 0 < prev.close then
        some ⟨pc.2, round2 (((curr.close - prev.close) / prev.close) * 100)⟩
      else none
  | _, _ => none

/-- `calculate_annual_returns` (src/process_stock_data.py, lines 105-135):
group prices by year, sort the years, and for each consecutive pair of years
with a positive prior representative price emit a rounded percentage return.
An empty input trivially yields `[]`, as in the source's early return. -/
def calculate_annual_returns (prices : List PricePoint) : List AnnualReturn :=
  (consecPairs (yearsOf prices)).filterMap (annualReturnOfPair prices)

/-- The number of distinct calendar years present in a price series. -/
def numDistinctYears (prices : List PricePoint) : Nat :=
  ((prices.map (·.year)).dedup).length

/-- The statistics record built by `calculate_stats`
(src/process_stock_data.py, lines 149-155). -/
structure Stats where
  mean : ℚ
  stdDev : ℚ
  min : ℚ
  max : ℚ
  count : Nat
deriving DecidableEq, Repr

/-- `round(v ** 0.5, 2)` for `v ≥ 0`: the exact square root of `v` rounded to
2 decimal places.  For `v = a / b` (in lowest terms) we have
`round(100 * sqrt v) = ⌊(sqrt (40000 * a * b) + b) / (2 * b)⌋`, computed with
`Nat.sqrt`; negative inputs (which cannot arise from a variance) are clamped
to 0 by `Int.toNat`. -/
def sqrtRound2 (v : ℚ) : ℚ :=
  (((Nat.sqrt (40000 * v.num.toNat * v.den) + v.den) / (2 * v.den) : ℕ) : ℚ) / 100

/-- Python's `min` over a nonempty list ( `min(returns)` at
src/process_stock_data.py, line 152); the `[]` case is never reached by
`calculate_stats`. -/
def pyMin : List ℚ → ℚ
  | [] => 0
  | x :: xs => xs.foldl min x

/-- Python's `max` over a nonempty list (src/process_stock_data.py, line 153). -/
def pyMax : List ℚ → ℚ
  | [] => 0
  | x :: xs => xs.foldl max x

/-- `calculate_stats` (src/process_stock_data.py, lines 137-155): `None` on an
empty input; otherwise mean, sample standard deviation (divisor `n - 1`),
min, max and count over the `'return'` fields, each rounded to 2 decimals.
When `len(returns) - 1 == 0` the source raises `ZeroDivisionError`, embedded
here as `.error`. -/
def calculate_stats (annual_returns : List AnnualReturn) :
    Except String (Option Stats) :=
  if annual_returns.isEmpty then .ok none
  else
    let returns := annual_returns.map (·.ret)
    let n := returns.length
    if n = 1 then .error "ZeroDivisionError"
    else
      let mean := returns.sum / (n : ℚ)
      let variance := (returns.map (fun r => (r - mean) ^ 2)).sum / ((n : ℚ) - 1)
      .ok (some
        { mean := round2 mean
          stdDev := sqrtRound2 variance
          min := round2 (pyMin returns)
          max := round2 (pyMax returns)
          count := n })

/-- Spec-side definition, for the refinement claim about `calculate_stats`:
"sample standard deviation using divisor n−1" — the mean of the squared
deviations from the arithmetic mean, divided by `n - 1`. -/
def sampleVariance (l : List ℚ) : ℚ :=
  (l.map (fun r => (r - l.sum / (l.length : ℚ)) ^ 2)).sum / ((l.length : ℚ) - 1)

/-- The four quarterly records emitted for one annual record by the
annual-only quarterly approximation: one entry per quarter `q in range(1, 5)`,
each carrying `round(annual_ret / 4, 2)`
(src/create_comprehensive_data.py, lines 78-83 and 136-141). -/
def quarterBlock (r : AnnualReturn) : List QuarterlyReturn :=
  ([1, 2, 3, 4] : List Nat).map (fun q => ⟨r.year, q, round2 (r.ret / 4)⟩)

/-- The annual-only quarterly approximation loops building `sp_quarterly`
(src/create_comprehensive_data.py, lines 74-83) and the bonds' `quarterly`
(lines 133-141): both iterate `for i in range(1, len(returns))` — skipping
index 0 — and append the four quarters of `returns[i]`'s year. -/
def approxQuarterly (returns : List AnnualReturn) : List QuarterlyReturn :=
  returns.tail.flatMap quarterBlock

/-- The inner loop of `calculate_rolling_returns` for one window length
(src/create_comprehensive_data.py, lines 176-184): for
`i in range(period, len(returns_list) + 1)` compound the slice
`returns_list[i-period:i]`, take the `period`-th root (abstracted as `root`),
and convert back to a rounded percentage. -/
def rolling_window (root : ℚ → ℕ → ℚ) (returns_list : List ℚ)
    (period : ℕ) : List ℚ :=
  (List.range' period (returns_list.length + 1 - period)).map (fun i =>
    let period_returns := (returns_list.drop (i - period)).take period
    let cumulative := period_returns.foldl (fun c r => c * (1 + r / 100)) 1
    round2 ((root cumulative period - 1) * 100))

/-- `calculate_rolling_returns` (src/create_comprehensive_data.py,
lines 173-186): one `(period, sequence)` entry per requested window length,
mirroring the dict keyed by `f'period{period}'`. -/
def calculate_rolling_returns (root : ℚ → ℕ → ℚ) (returns_list : List ℚ)
    (periods : List ℕ) : List (ℕ × List ℚ) :=
  periods.map (fun period => (period, rolling_window root returns_list period))

/-- The per-instrument record stored in the composite dataset
(src/process_stock_data.py, lines 203-212 and
src/create_comprehensive_data.py, lines 100-109, 157-166). -/
structure InstrumentRecord where
  name : String
  sector : String
  annualReturns : List AnnualReturn
  quarterlyReturns : List QuarterlyReturn
  stats : Option Stats
  dataPoints : Nat
  startYear : Int
  endYear : Int
deriving DecidableEq

/-- The composite dataset: the Python dict `stock_data`, as a map from keys
to optional records. -/
abbrev Dataset : Type := String → Option InstrumentRecord

/-- Python dict assignment `stock_data[key] = record`
(e.g. `stock_data['SPX'] = {...}` at src/create_comprehensive_data.py,
lines 100-109): the value at `key` is fully replaced, all other keys keep
their value. -/
def insertRecord (d : Dataset) (k : String) (v : InstrumentRecord) : Dataset :=
  fun k' => if k' = k then some v else d k'

/-- The concrete price series of the spec's worked scenario:
year-end closes (2020, 100), (2021, 110), (2022, 99). -/
def samplePrices : List PricePoint :=
  [⟨2020, 100⟩, ⟨2021, 110⟩, ⟨2022, 99⟩]

/-- The annual returns of the worked scenario: +10% in 2021, -10% in 2022. -/
def sampleReturns : List AnnualReturn :=
  [⟨2021, 10⟩, ⟨2022, -10⟩]

/-- A price series whose first year has a non-positive representative close. -/
def zeroPrices : List PricePoint :=
  [⟨2020, 0⟩, ⟨2021, 110⟩, ⟨2022, 99⟩]

/-! ## Helper lemmas -/

theorem consecPairs_length {α : Type} : ∀ l : List α, (consecPairs l).length = l.length - 1
  | [] => rfl
  | [_] => rfl
  | a :: b :: rest => by
    have ih := consecPairs_length (b :: rest)
    simp only [consecPairs, List.length_cons] at ih ⊢
    omega

theorem consecPairs_fst_mem {α : Type} :
    ∀ {l : List α} {p : α × α}, p ∈ consecPairs l → p.1 ∈ l
  | [], _, h => by simp [consecPairs] at h
  | [_], _, h => by simp [consecPairs] at h
  | a :: b :: rest, p, h => by
    rcases List.mem_cons.1 h with h | h
    · subst h; exact List.mem_cons_self ..
    · exact List.mem_cons_of_mem a (consecPairs_fst_mem h)

theorem consecPairs_snd_mem_tail {α : Type} :
    ∀ {l : List α} {p : α × α}, p ∈ consecPairs l → p.2 ∈ l.tail
  | [], _, h => by simp [consecPairs] at h
  | [_], _, h => by simp [consecPairs] at h
  | a :: b :: rest, p, h => by
    rcases List.mem_cons.1 h with h | h
    · subst h; exact List.mem_cons_self ..
    · exact (b :: rest).tail_subset (consecPairs_snd_mem_tail h)

theorem consecPairs_snd_mem {α : Type} {l : List α} {p : α × α}
    (h : p ∈ consecPairs l) : p.2 ∈ l :=
  l.tail_subset (consecPairs_snd_mem_tail h)

theorem consecPairs_fst_unique {α : Type} :
    ∀ {l : List α}, l.Nodup → ∀ {a a' b : α},
      (a, b) ∈ consecPairs l → (a', b) ∈ consecPairs l → a = a'
  | [], _, _, _, _, h, _ => by simp [consecPairs] at h
  | [_], _, _, _, _, h, _ => by simp [consecPairs] at h
  | x :: y :: rest, hnd, a, a', b, h, h' => by
    have hy : y ∉ rest := (List.nodup_cons.1 (List.nodup_cons.1 hnd).2).1
    rcases List.mem_cons.1 h with h | h <;> rcases List.mem_cons.1 h' with h' | h'
    · rw [Prod.mk.injEq] at h h'; rw [h.1, h'.1]
    · exfalso
      have hb : b ∈ rest := consecPairs_snd_mem_tail h'
      rw [Prod.mk.injEq] at h
      rw [← h.2] at hy; exact hy hb
    · exfalso
      have hb : b ∈ rest := consecPairs_snd_mem_tail h
      rw [Prod.mk.injEq] at h'
      rw [← h'.2] at hy; exact hy hb
    · exact consecPairs_fst_unique (List.nodup_cons.1 hnd).2 h h'

theorem length_filterMap_of_isSome {α β : Type} (f : α → Option β) :
    ∀ l : List α, (∀ x ∈ l, (f x).isSome) → (l.filterMap f).length = l.length
  | [], _ => rfl
  | a :: t, h => by
    obtain ⟨b, hb⟩ := Option.isSome_iff_exists.1 (h a (List.mem_cons_self ..))
    rw [List.filterMap_cons, hb, List.length_cons, List.length_cons,
      length_filterMap_of_isSome f t (fun x hx => h x (List.mem_cons_of_mem a hx))]

theorem yearsOf_perm (prices : List PricePoint) :
    List.Perm (yearsOf prices) ((prices.map (·.year)).dedup) :=
  List.perm_insertionSort _ _

theorem mem_yearsOf {y : Int} {prices : List PricePoint} :
    y ∈ yearsOf prices ↔ y ∈ prices.map (·.year) := by
  rw [(yearsOf_perm prices).mem_iff, List.mem_dedup]

theorem yearsOf_nodup (prices : List PricePoint) : (yearsOf prices).Nodup :=
  ((yearsOf_perm prices).nodup_iff).2 (List.nodup_dedup _)

theorem yearsOf_length (prices : List PricePoint) :
    (yearsOf prices).length = numDistinctYears prices :=
  (yearsOf_perm prices).length_eq

theorem getLast?_mem_of_ne_nil {α : Type} :
    ∀ {l : List α}, l ≠ [] → ∃ a, l.getLast? = some a ∧ a ∈ l
  | [], h => absurd rfl h
  | [a], _ => ⟨a, rfl, List.mem_cons_self ..⟩
  | a :: b :: t, _ => by
    obtain ⟨c, hc, hmem⟩ := getLast?_mem_of_ne_nil (List.cons_ne_nil b t)
    exact ⟨c, by rw [List.getLast?_cons_cons, hc], List.mem_cons_of_mem a hmem⟩

theorem lastOfYear_of_mem {prices : List PricePoint} {y : Int}
    (h : y ∈ prices.map (·.year)) :
    ∃ p, lastOfYear prices y = some p ∧ p ∈ prices ∧ p.year = y := by
  obtain ⟨q, hq, hqy⟩ := List.mem_map.1 h
  have hmem : q ∈ prices.filter (fun p => decide (p.year = y)) :=
    List.mem_filter.2 ⟨hq, by simp [hqy]⟩
  obtain ⟨p, hp, hpmem⟩ :=
    getLast?_mem_of_ne_nil (List.ne_nil_of_mem hmem)
  refine ⟨p, hp, ?_, ?_⟩
  · exact List.mem_of_mem_filter hpmem
  · simpa using (List.mem_filter.1 hpmem).2

theorem annualReturnOfPair_year {prices : List PricePoint} {pc : Int × Int}
    {a : AnnualReturn} (h : annualReturnOfPair prices pc = some a) :
    a.year = pc.2 := by
  unfold annualReturnOfPair at h
  rcases hp : lastOfYear prices pc.1 with _ | prev <;> rw [hp] at h <;>
    rcases hc : lastOfYear prices pc.2 with _ | curr <;> rw [hc] at h <;>
    simp at h
  rw [← h.2]

/-! ## Claims -/

/-- C1: for every price series (whose points carry positive closes, as the
data model's `PricePoint` requires), the annual-return sequence produced by
`calculate_annual_returns` has length equal to the number of distinct calendar
years present in the series minus 1 (truncated subtraction, so an empty series
yields 0). -/
theorem c1_annual_return_count (prices : List PricePoint)
    (hpos : ∀ p ∈ prices, 0 < p.close) :
    (calculate_annual_returns prices).length = numDistinctYears prices - 1 := by
  have hall : ∀ pc ∈ consecPairs (yearsOf prices),
      (annualReturnOfPair prices pc).isSome := by
    intro pc hpc
    obtain ⟨p, hp, hpmem, -⟩ :=
      lastOfYear_of_mem (mem_yearsOf.1 (consecPairs_fst_mem hpc))
    obtain ⟨q, hq, -, -⟩ :=
      lastOfYear_of_mem (mem_yearsOf.1 (consecPairs_snd_mem hpc))
    simp [annualReturnOfPair, hp, hq, hpos p hpmem]
  unfold calculate_annual_returns
  rw [length_filterMap_of_isSome _ _ hall, consecPairs_length, yearsOf_length]

/-- Witness for C1 at the concrete three-year series. -/
theorem c1_annual_return_count_witness :
    (∀ p ∈ samplePrices, 0 < p.close) ∧
    (calculate_annual_returns samplePrices).length =
      numDistinctYears samplePrices - 1 :=
  ⟨by decide, c1_annual_return_count samplePrices (by decide)⟩

/-- C5: dataset composition is last-writer-wins per key: inserting `A` at a
key and then `B` at the same key leaves exactly `B` there (full record
replacement — the double insertion even equals the single insertion of `B`,
so no field of `A` survives). -/
theorem c5_last_writer_wins (d : Dataset) (k : String) (A B : InstrumentRecord) :
    insertRecord (insertRecord d k A) k B k = some B ∧
    insertRecord (insertRecord d k A) k B = insertRecord d k B := by
  constructor
  · simp [insertRecord]
  · funext k'
    by_cases h : k' = k <;> simp [insertRecord, h]

/-- C9: the worked scenario — prices (2020, 100), (2021, 110), (2022, 99)
produce annual returns [(2021, 10.0), (2022, -10.0)], and `calculate_stats`
on that result gives mean 0.0, stdDev 14.14, min -10.0, max 10.0, count 2. -/
theorem c9_worked_scenario :
    calculate_annual_returns samplePrices = sampleReturns ∧
    calculate_stats (calculate_annual_returns samplePrices) =
      .ok (some ⟨0, 14.14, -10, 10, 2⟩) := by
  have hann : calculate_annual_returns samplePrices = sampleReturns := by
    norm_num [samplePrices, sampleReturns, calculate_annual_returns, yearsOf,
      lastOfYear, annualReturnOfPair, consecPairs, round2, List.insertionSort,
      List.orderedInsert, List.dedup, Rat.floor, List.filterMap_cons, List.filter]
  refine ⟨hann, ?_⟩
  rw [hann]
  have h : Nat.sqrt 8000000 = 2828 := (Nat.eq_sqrt.2 (by norm_num)).symm
  norm_num [sampleReturns, calculate_stats, round2, sqrtRound2, pyMin, pyMax,
    Rat.floor, min_def, max_def, show Int.toNat 200 = 200 from rfl, h]

/-- C8: when the representative (last) price of the prior year of a
transition is `≤ 0`, that transition contributes no return point — nothing in
the output carries the current year of that transition — while every other
transition with a positive prior representative price is still processed
(the embedding is total, so no exception is possible). -/
theorem c8_nonpositive_prior (prices : List PricePoint) (py cy : Int)
    (prev : PricePoint) (hmem : (py, cy) ∈ consecPairs (yearsOf prices))
    (hprev : lastOfYear prices py = some prev) (hle : prev.close ≤ 0) :
    (∀ a ∈ calculate_annual_returns prices, a.year ≠ cy) ∧
    (∀ py' cy' : Int, ∀ prev' : PricePoint,
      (py', cy') ∈ consecPairs (yearsOf prices) →
      lastOfYear prices py' = some prev' → 0 < prev'.close →
      ∃ a ∈ calculate_annual_returns prices, a.year = cy') := by
  constructor
  · intro a ha hay
    obtain ⟨pc, hpc, hsome⟩ := List.mem_filterMap.1 ha
    have h2 : pc.2 = cy := by rw [← annualReturnOfPair_year hsome, hay]
    have h1 : pc.1 = py := by
      refine consecPairs_fst_unique (yearsOf_nodup prices) ?_ hmem
      rw [← h2]; exact hpc
    rw [annualReturnOfPair, h1, h2, hprev] at hsome
    have hnl : ¬ 0 < prev.close := not_lt.2 hle
    rcases hc : lastOfYear prices cy with _ | curr <;> rw [hc] at hsome <;>
      simp [hnl] at hsome
  · intro py' cy' prev' hmem' hprev' hpos'
    obtain ⟨q, hq, -, -⟩ :=
      lastOfYear_of_mem (mem_yearsOf.1 (consecPairs_snd_mem hmem'))
    refine ⟨⟨cy', round2 (((q.close - prev'.close) / prev'.close) * 100)⟩,
      List.mem_filterMap.2 ⟨(py', cy'), hmem', ?_⟩, rfl⟩
    rw [annualReturnOfPair, hprev', hq]
    simp [hpos']

/-- Witness for C8: in `zeroPrices` the 2020 close is 0, so no 2021 return is
produced, while the 2021→2022 transition still yields a 2022 return. -/
theorem c8_nonpositive_prior_witness :
    lastOfYear zeroPrices 2020 = some ⟨2020, 0⟩ ∧
    ((2020 : Int), (2021 : Int)) ∈ consecPairs (yearsOf zeroPrices) ∧
    (∀ a ∈ calculate_annual_returns zeroPrices, a.year ≠ 2021) ∧
    (∀ py' cy' : Int, ∀ prev' : PricePoint,
      (py', cy') ∈ consecPairs (yearsOf zeroPrices) →
      lastOfYear zeroPrices py' = some prev' → 0 < prev'.close →
      ∃ a ∈ calculate_annual_returns zeroPrices, a.year = cy') :=
  ⟨by decide, by decide,
    c8_nonpositive_prior zeroPrices 2020 2021 ⟨2020, 0⟩ (by decide) (by decide)
      (by decide)⟩

/-- C6: `calculate_stats` returns `None` (not a zero or NaN record) on an
empty input, and whenever it succeeds with a record, the record's `count`
equals the length of the input sequence. -/
theorem c6_stats_count :
    calculate_stats [] = .ok none ∧
    ∀ (rs : List AnnualReturn) (s : Stats),
      calculate_stats rs = .ok (some s) → s.count = rs.length := by
  refine ⟨rfl, ?_⟩
  intro rs s h
  cases rs with
  | nil => simp [calculate_stats] at h
  | cons a t =>
    rw [calculate_stats, if_neg (by simp)] at h
    dsimp only at h
    split at h
    · exact Except.noConfusion h
    · rw [Except.ok.injEq, Option.some.injEq] at h
      rw [← h]
      simp

/-- Witness for C6 at the concrete two-element return list. -/
theorem c6_stats_count_witness :
    calculate_stats [] = .ok none ∧
    ((⟨0, 14.14, -10, 10, 2⟩ : Stats)).count = sampleReturns.length := by
  refine ⟨c6_stats_count.1, c6_stats_count.2 sampleReturns _ ?_⟩
  have h : Nat.sqrt 8000000 = 2828 := (Nat.eq_sqrt.2 (by norm_num)).symm
  norm_num [sampleReturns, calculate_stats, round2, sqrtRound2, pyMin, pyMax,
    Rat.floor, min_def, max_def, show Int.toNat 200 = 200 from rfl, h]

/-- C7: `calculate_stats` computes the variance with divisor `n - 1` (the
sample variance of the spec, `sampleVariance`), raises on a length-1 input
(division by zero), and for `n ≥ 2` the division-by-zero branch is
unreachable and the computation succeeds. An empty input is the undefined
(`None`) case. -/
theorem c7_sample_stddev (rs : List AnnualReturn) :
    (rs = [] → calculate_stats rs = .ok none) ∧
    (rs.length = 1 → calculate_stats rs = .error "ZeroDivisionError") ∧
    (2 ≤ rs.length → ∃ s, calculate_stats rs = .ok (some s) ∧
      s.stdDev = sqrtRound2 (sampleVariance (rs.map (·.ret))) ∧
      s.count = rs.length) := by
  refine ⟨?_, ?_, ?_⟩
  · rintro rfl; rfl
  · intro h1
    cases rs with
    | nil => simp at h1
    | cons a t =>
      have ht : t = [] := by
        rw [List.length_cons] at h1
        exact List.length_eq_zero.1 (Nat.succ_injective h1)
      subst ht
      rfl
  · intro h2
    cases rs with
    | nil => simp at h2
    | cons a t =>
      have hne : ((a :: t).map (·.ret)).length ≠ 1 := by
        rw [List.length_map, List.length_cons]
        rw [List.length_cons] at h2
        omega
      rw [calculate_stats, if_neg (by simp), if_neg hne]
      exact ⟨_, rfl, by simp [sampleVariance], by simp⟩

/-- Witness for C7 at the concrete two-element return list. -/
theorem c7_sample_stddev_witness :
    2 ≤ sampleReturns.length ∧
    ∃ s, calculate_stats sampleReturns = .ok (some s) ∧
      s.stdDev = sqrtRound2 (sampleVariance (sampleReturns.map (·.ret))) ∧
      s.count = sampleReturns.length :=
  ⟨by decide, (c7_sample_stddev sampleReturns).2.2 (by decide)⟩

/-- C2: every quarterly record produced by the annual-only approximation
carries exactly the annual return of its year divided by 4 (simple division)
and rounded to 2 decimals — so the four quarters of one year all carry this
same value, and all four are present for every year after the first.
(The year labels of an annual-return sequence are distinct, per the data
model's no-duplicate-periods invariant.) -/
theorem c2_quarterly_approx (returns : List AnnualReturn)
    (hnd : (returns.map (·.year)).Nodup) :
    (∀ qr ∈ approxQuarterly returns, ∀ a ∈ returns, a.year = qr.year →
        qr.ret = round2 (a.ret / 4)) ∧
    (∀ a ∈ returns.tail, ∀ q ∈ ([1, 2, 3, 4] : List Nat),
        (⟨a.year, q, round2 (a.ret / 4)⟩ : QuarterlyReturn) ∈
          approxQuarterly returns) := by
  constructor
  · intro qr hqr a ha hay
    obtain ⟨b, hb, hqb⟩ := List.mem_flatMap.1 hqr
    obtain ⟨q, hq, heq⟩ := List.mem_map.1 hqb
    have hyb : qr.year = b.year := by rw [← heq]
    have hab : a = b :=
      List.inj_on_of_nodup_map hnd ha (returns.tail_subset hb) (by rw [hay, hyb])
    rw [← heq, hab]
  · intro a ha q hq
    exact List.mem_flatMap.2 ⟨a, ha, List.mem_map.2 ⟨q, hq, rfl⟩⟩

/-- Witness for C2: in the worked scenario the 2022 annual return -10.0 puts
value round2(-10/4) = -2.5 in each of the four quarters of 2022. -/
theorem c2_quarterly_approx_witness :
    (sampleReturns.map (·.year)).Nodup ∧
    (⟨2022, 1, round2 ((-10 : ℚ) / 4)⟩ : QuarterlyReturn) ∈
      approxQuarterly sampleReturns :=
  ⟨by decide,
    (c2_quarterly_approx sampleReturns (by decide)).2 ⟨2022, -10⟩ (by decide)
      1 (by decide)⟩

theorem flatMap_quarterBlock_length :
    ∀ t : List AnnualReturn, (t.flatMap quarterBlock).length = 4 * t.length
  | [] => rfl
  | b :: t => by
    rw [List.flatMap_cons, List.length_append, flatMap_quarterBlock_length t]
    simp [quarterBlock]
    omega

theorem flatMap_quarterBlock_filter_count :
    ∀ (t : List AnnualReturn) (y : Int),
      ((t.flatMap quarterBlock).filter (fun qr => decide (qr.year = y))).length
        = 4 * (t.map (·.year)).count y
  | [], _ => rfl
  | b :: t, y => by
    rw [List.flatMap_cons, List.filter_append, List.length_append,
      flatMap_quarterBlock_filter_count t y]
    by_cases hby : b.year = y
    · simp [quarterBlock, hby, List.count_cons]
      omega
    · simp [quarterBlock, hby, List.count_cons, Ne.symm hby]

/-- C10: on an annual-return sequence of length n ≥ 1 (with the distinct year
labels of the data model), the annual-only quarterly approximation emits
exactly 4 * (n - 1) records: the first year contributes no quarterly points
and every subsequent year contributes exactly four. -/
theorem c10_quarterly_count (a : AnnualReturn) (rest : List AnnualReturn)
    (hnd : ((a :: rest).map (·.year)).Nodup) :
    (approxQuarterly (a :: rest)).length = 4 * ((a :: rest).length - 1) ∧
    (∀ qr ∈ approxQuarterly (a :: rest), qr.year ≠ a.year) ∧
    (∀ b ∈ rest, ((approxQuarterly (a :: rest)).filter
        (fun qr => decide (qr.year = b.year))).length = 4) := by
  have htail : approxQuarterly (a :: rest) = rest.flatMap quarterBlock := rfl
  rw [List.map_cons, List.nodup_cons] at hnd
  refine ⟨?_, ?_, ?_⟩
  · rw [htail, flatMap_quarterBlock_length]
    simp
  · intro qr hqr hya
    rw [htail] at hqr
    obtain ⟨b, hb, hqb⟩ := List.mem_flatMap.1 hqr
    obtain ⟨q, hq, heq⟩ := List.mem_map.1 hqb
    have hyb : qr.year = b.year := by rw [← heq]
    exact hnd.1 (by rw [← hya, hyb]; exact List.mem_map.2 ⟨b, hb, rfl⟩)
  · intro b hb
    rw [htail, flatMap_quarterBlock_filter_count,
      List.count_eq_one_of_mem hnd.2 (List.mem_map.2 ⟨b, hb, rfl⟩)]

/-- Witness for C10 on a three-element annual sequence: 8 quarterly records,
none from the first year, four from 2022. -/
theorem c10_quarterly_count_witness :
    (((⟨2020, 5⟩ : AnnualReturn) :: sampleReturns).map (·.year)).Nodup ∧
    (approxQuarterly ((⟨2020, 5⟩ : AnnualReturn) :: sampleReturns)).length =
      4 * (((⟨2020, 5⟩ : AnnualReturn) :: sampleReturns).length - 1) ∧
    (∀ b ∈ sampleReturns,
      ((approxQuarterly ((⟨2020, 5⟩ : AnnualReturn) :: sampleReturns)).filter
        (fun qr => decide (qr.year = b.year))).length = 4) :=
  ⟨by decide,
    (c10_quarterly_count ⟨2020, 5⟩ sampleReturns (by decide)).1,
    (c10_quarterly_count ⟨2020, 5⟩ sampleReturns (by decide)).2.2⟩

/-- C3: for every annual-return sequence of length n and every requested
window length W, `calculate_rolling_returns` carries an entry for W whose
sequence has length n + 1 - W (truncated, i.e. max(0, n - W + 1)); in
particular when W > n the sequence is empty. The embedding is total and the
statement holds for every root function, so no error is possible. -/
theorem c3_rolling_length (root : ℚ → ℕ → ℚ) (returns_list : List ℚ)
    (periods : List ℕ) : ∀ W ∈ periods,
    ∃ seq, (W, seq) ∈ calculate_rolling_returns root returns_list periods ∧
      seq.length = returns_list.length + 1 - W ∧
      (returns_list.length < W → seq = []) := by
  intro W hW
  refine ⟨rolling_window root returns_list W,
    List.mem_map_of_mem _ hW, ?_, ?_⟩
  · simp [rolling_window]
  · intro h
    rw [rolling_window, Nat.sub_eq_zero_of_le h]
    rfl

/-- Witness for C3: window 5 on a 2-element sequence is present and empty. -/
theorem c3_rolling_length_witness :
    5 ∈ ([1, 5, 10, 20, 30] : List ℕ) ∧
    ∃ seq, (5, seq) ∈
        calculate_rolling_returns (fun x _ => x) [10, -10] [1, 5, 10, 20, 30] ∧
      seq.length = ([10, -10] : List ℚ).length + 1 - 5 ∧
      (([10, -10] : List ℚ).length < 5 → seq = []) :=
  ⟨by decide,
    c3_rolling_length (fun x _ => x) [10, -10] [1, 5, 10, 20, 30] 5 (by decide)⟩

theorem map_range_window (F : List ℚ → ℚ) :
    ∀ l : List ℚ,
      (List.range l.length).map (fun j => F ((l.drop j).take 1)) =
        l.map (fun x => F [x])
  | [] => rfl
  | x :: xs => by
    rw [List.length_cons, List.range_succ_eq_map, List.map_cons, List.map_map]
    congr 1
    have := map_range_window F xs
    rw [← this]
    apply List.map_congr_left
    intro j hj
    simp

/-- C4: on an annual-return sequence whose entries are already rounded to
2 decimal places, the window-length-1 rolling sequence equals the annual
sequence itself — `calculate_rolling_returns` with the source's period set
starts with the entry (1, input). The root hypothesis is the source fact
`x ** (1/1) == x`. -/
theorem c4_one_year_identity (root : ℚ → ℕ → ℚ)
    (hroot : ∀ x : ℚ, root x 1 = x) (returns_list : List ℚ)
    (h2 : ∀ r ∈ returns_list, round2 r = r) :
    (calculate_rolling_returns root returns_list [1, 5, 10, 20, 30]).head? =
      some (1, returns_list) := by
  have hwin : rolling_window root returns_list 1 = returns_list := by
    rw [rolling_window, Nat.add_sub_cancel, List.range'_eq_map_range,
      List.map_map]
    have hcomp :
        ((fun i =>
            round2 ((root (((returns_list.drop (i - 1)).take 1).foldl
              (fun c r => c * (1 + r / 100)) 1) 1 - 1) * 100)) ∘ (1 + ·)) =
          fun j =>
            round2 ((root (((returns_list.drop j).take 1).foldl
              (fun c r => c * (1 + r / 100)) 1) 1 - 1) * 100) := by
      funext j
      simp
    rw [hcomp,
      map_range_window
        (fun w => round2 ((root (w.foldl (fun c r => c * (1 + r / 100)) 1) 1 - 1) * 100))
        returns_list]
    have hid : ∀ x ∈ returns_list,
        round2 ((root ([x].foldl (fun c r => c * (1 + r / 100)) 1) 1 - 1) * 100) =
          x := by
      intro x hx
      have hfold : ([x].foldl (fun c r => c * (1 + r / 100)) 1) = 1 * (1 + x / 100) :=
        rfl
      rw [hfold, hroot, one_mul]
      have harith : (1 + x / 100 - 1) * 100 = x := by
        field_simp
      rw [harith]
      exact h2 x hx
    calc returns_list.map
          (fun x => round2 ((root ([x].foldl (fun c r => c * (1 + r / 100)) 1) 1 - 1) * 100))
        = returns_list.map id := List.map_congr_left hid
      _ = returns_list := List.map_id returns_list
  rw [calculate_rolling_returns, List.map_cons, List.head?_cons, hwin]

/-- Witness for C4 on the worked two-element return list with the identity
as the 1-st root. -/
theorem c4_one_year_identity_witness :
    (∀ r ∈ ([10, -10] : List ℚ), round2 r = r) ∧
    (calculate_rolling_returns (fun x _ => x) [10, -10]
        [1, 5, 10, 20, 30]).head? = some (1, [10, -10]) :=
  ⟨by norm_num [round2, Rat.floor],
    c4_one_year_identity (fun x _ => x) (fun _ => rfl) [10, -10]
      (by norm_num [round2, Rat.floor])⟩

end StockPipeline
